import Mathlib

/-!
Verification development for the avn-parachain external-service event pipeline
(`client/external-service/src`): the event-discovery engine, the EVM client
pool, the finality gate and the latest-block vote, embedded shallowly.

Byte strings (`H160`, `H256`, event data) are modelled as `List Nat`; machine
integers are `Nat` with explicit `% 2 ^ 32` where the source truncates.
Asynchronous RPC calls are modelled as pure functions on a `ChainClient`
record; fallible calls return `Except`.
-/

/-- Byte strings (20-byte addresses, 32-byte hashes, payloads). -/
abbrev Bytes := List Nat

/-- `chain/mod.rs` `ChainLog`: one log returned by the external chain. -/
structure ChainLog where
  address : Bytes
  topics : List Bytes
  data : Bytes
  transaction_hash : Option Bytes
  block_number : Option Nat
deriving DecidableEq

/-- `chain/mod.rs` `ChainReceipt`. -/
structure ChainReceipt where
  block_number : Option Nat
  json : Bytes
deriving DecidableEq

/-- `chain/mod.rs` `LogFilter`: the four positional topic constraints are the
entries of the Rust `topics: [Option<Vec<ChainHash>>; 4]` array. -/
structure LogFilter where
  from_block : Nat
  to_block : Nat
  addresses : List Bytes
  topic0 : Option (List Bytes)
  topic1 : Option (List Bytes)
  topic2 : Option (List Bytes)
  topic3 : Option (List Bytes)
deriving DecidableEq

/-- `chain/mod.rs` trait `ChainClient`, restricted to the capabilities the
claims exercise (`get_transaction_input`, `read_call`, `send_transaction` are
unused by the code under verification). `anyhow` errors are `Unit`. -/
structure ChainClient where
  block_number : Except Unit Nat
  chain_id : Except Unit Nat
  get_logs : LogFilter → Except Unit (List ChainLog)
  get_receipt : Bytes → Except Unit (Option ChainReceipt)

/-- `ethereum_events_handler.rs` `AppError`. The `String` payload of
`GenericError` and the `Error` payload of `ParsingError` carry no structure
the claims need; `ParsingError` keeps an opaque `Nat` code, `GenericError`
drops its message. -/
inductive AppError where
  | ErrorParsingEventLogs
  | ErrorGettingEventLogs
  | ErrorGettingBridgeContract
  | RetryLimitReached
  | SignatureGenerationFailed
  | MissingTransactionHash
  | MissingBlockNumber
  | MissingEventSignature
  | ParsingError (e : Nat)
  | GenericError
deriving DecidableEq

/-- Modelled from the spec: the bridge event kinds of `sp_avn_common`
(`ValidEvents`), whose definition is outside `src/`; the constructor names
are those registered in `EventRegistry::new`. -/
inductive ValidEvents where
  | AddedValidator
  | Lifted
  | AvtGrowthLifted
  | NftCancelListing
  | NftEndBatchListing
  | NftMint
  | NftTransferTo
  | AvtLowerClaimed
  | LowerReverted
  | LiftedToPredictionMarket
  | Erc20DirectTransfer
deriving DecidableEq, Fintype

/-- Modelled from the spec: `ValidEvents::values()` lists every event kind. -/
def ValidEvents.values : List ValidEvents :=
  [ .AddedValidator, .Lifted, .AvtGrowthLifted, .NftCancelListing,
    .NftEndBatchListing, .NftMint, .NftTransferTo, .AvtLowerClaimed,
    .LowerReverted, .LiftedToPredictionMarket, .Erc20DirectTransfer ]

/-- Modelled from the spec: the numeric tag distinguishing each event kind's
32-byte signature constant. -/
def ValidEvents.tag : ValidEvents → Nat
  | .AddedValidator => 1
  | .Lifted => 2
  | .AvtGrowthLifted => 3
  | .NftCancelListing => 4
  | .NftEndBatchListing => 5
  | .NftMint => 6
  | .NftTransferTo => 7
  | .AvtLowerClaimed => 8
  | .LowerReverted => 9
  | .LiftedToPredictionMarket => 10
  | .Erc20DirectTransfer => 11

/-- Modelled from the spec: `ValidEvents::signature()`. The concrete keccak
constants live outside `src/`; they are represented by pairwise-distinct
32-byte values. -/
def ValidEvents.signature (e : ValidEvents) : Bytes :=
  List.replicate 31 0 ++ [e.tag]

/-- Modelled from the spec: the primary/secondary classification of event
kinds (spec section 4.3). Primary events are emitted directly on the bridge
contract; the direct ERC-20 transfer, emitted by arbitrary token contracts,
is secondary. -/
def ValidEvents.is_primary : ValidEvents → Bool
  | .Erc20DirectTransfer => false
  | _ => true

/-- Modelled from the spec: `ValidEvents::try_from(&H256)` recovers the event
kind with the given signature, if any. -/
def ValidEvents.try_from (sig : Bytes) : Option ValidEvents :=
  ValidEvents.values.find? (fun e => e.signature == sig)

/-- Modelled from the spec: opaque decoded payload of the non-transfer event
kinds (the byte-level field layout lives outside `src/`). -/
abbrev OpaqueEventPayload := Nat

/-- Modelled from the spec: `LiftedData`, the decoded payload of lift /
direct-transfer events; only its embedded token-contract address is observed
by the code under `src/` (the zero-address repair in `parse_log`). The
remaining fields are collapsed into an opaque payload. -/
structure LiftedData where
  token_contract : Bytes
  payload : OpaqueEventPayload
deriving DecidableEq

/-- `EventData` variants, with the constructor names used by
`EventRegistry::new`; payload shapes modelled from the spec. -/
inductive EventData where
  | LogAddedValidator (d : OpaqueEventPayload)
  | LogLifted (d : LiftedData)
  | LogAvtGrowthLifted (d : OpaqueEventPayload)
  | LogNftCancelListing (d : OpaqueEventPayload)
  | LogNftEndBatchListing (d : OpaqueEventPayload)
  | LogNftMinted (d : OpaqueEventPayload)
  | LogNftTransferTo (d : OpaqueEventPayload)
  | LogLowerClaimed (d : OpaqueEventPayload)
  | LogLowerReverted (d : OpaqueEventPayload)
  | LogLiftedToPredictionMarket (d : LiftedData)
  | LogErc20Transfer (d : LiftedData)
deriving DecidableEq

/-- Modelled from the spec: `EthEventId` of `sp_avn_common`. -/
structure EthEventId where
  signature : Bytes
  transaction_hash : Bytes
deriving DecidableEq

/-- Modelled from the spec: `EthEvent` of `sp_avn_common`. -/
structure EthEvent where
  event_id : EthEventId
  event_data : EventData
deriving DecidableEq

/-- Modelled from the spec: `DiscoveredEvent` of `sp_avn_common`. -/
structure DiscoveredEvent where
  event : EthEvent
  block : Nat
deriving DecidableEq

/-- `EventInfo`: one registered decoder. Every closure installed by
`EventRegistry::new` wraps its parse failures uniformly in
`AppError::ParsingError`, so the decoder is modelled as returning the inner
error code and the wrap is applied at the call site (`parse_event_data`). -/
structure EventInfo where
  decode : Option Bytes → List Bytes → Except Nat EventData

/-- `EventRegistry`: signature → decoder, with `get_event_info` lookup. -/
structure EventRegistry where
  get_event_info : Bytes → Option EventInfo

/-- `parse_event_data`: look the signature up in the registry (absence is
`ErrorParsingEventLogs`) and run the decoder. -/
def parse_event_data (signature : Bytes) (data : Option Bytes)
    (topics : List Bytes) (events_registry : EventRegistry) :
    Except AppError EventData :=
  match events_registry.get_event_info signature with
  | none => .error .ErrorParsingEventLogs
  | some info =>
    match info.decode data topics with
    | .error e => .error (.ParsingError e)
    | .ok d => .ok d

/-- `parse_log` (`ethereum_events_handler.rs` lines 360-383): reject a log
with no topics / no transaction hash / no block number, decode via the
registry, and repair a zero token-contract address on a direct transfer by
substituting the log's emitting contract address. -/
def parse_log (events_registry : EventRegistry) (log : ChainLog) :
    Except AppError DiscoveredEvent :=
  match log.topics with
  | [] => .error .MissingEventSignature
  | signature :: _ =>
    match log.transaction_hash with
    | none => .error .MissingTransactionHash
    | some tx_hash =>
      match log.block_number with
      | none => .error .MissingBlockNumber
      | some block_number =>
        let event_id : EthEventId :=
          { signature := signature, transaction_hash := tx_hash }
        let data : Option Bytes :=
          if log.data.isEmpty then none else some log.data
        match parse_event_data signature data log.topics events_registry with
        | .error e => .error e
        | .ok parsed =>
          let event_data :=
            match parsed with
            | .LogErc20Transfer d =>
              if d.token_contract.all (fun b => b == 0) then
                EventData.LogErc20Transfer { d with token_contract := log.address }
              else
                EventData.LogErc20Transfer d
            | other => other
          .ok { event := { event_id := event_id, event_data := event_data },
                block := block_number }

/-- First-match association lookup, modelling `HashMap::get` /
`HashMap::contains_key` on the `unique_transactions` map. -/
def findEntry (m : List (Bytes × DiscoveredEvent)) (h : Bytes) :
    Option DiscoveredEvent :=
  match m with
  | [] => none
  | (k, v) :: rest => if k = h then some v else findEntry rest h

/-- The dedup-and-decode loop of `identify_events` (lines 302-311): walk the
primary-then-secondary log list, skip logs with no transaction hash, skip
hashes already present, decode fresh ones (propagating decode failure). -/
def merge_logs (events_registry : EventRegistry) :
    List ChainLog → List (Bytes × DiscoveredEvent) →
    Except AppError (List (Bytes × DiscoveredEvent))
  | [], acc => .ok acc
  | log :: rest, acc =>
    match log.transaction_hash with
    | none => merge_logs events_registry rest acc
    | some tx_hash =>
      match findEntry acc tx_hash with
      | some _ => merge_logs events_registry rest acc
      | none =>
        match parse_log events_registry log with
        | .error e => .error e
        | .ok discovered_event =>
          merge_logs events_registry rest ((tx_hash, discovered_event) :: acc)

/-- The filter of `identify_primary_bridge_events` (lines 238-255): topic 0 is
the OR-set of the given signatures, the address set is the bridge contracts. -/
def mkPrimaryFilter (start_block end_block : Nat)
    (bridge_contract_addresses : List Bytes)
    (event_types : List ValidEvents) : LogFilter :=
  { from_block := start_block, to_block := end_block,
    addresses := bridge_contract_addresses,
    topic0 := some (event_types.map ValidEvents.signature),
    topic1 := none, topic2 := none, topic3 := none }

/-- The address-as-topic padding of `identify_secondary_bridge_events`
(lines 219-226): the 20 address bytes right-aligned into a 32-byte value. -/
def address_to_topic (a : Bytes) : Bytes :=
  List.replicate 12 0 ++ a

/-- The filter of `identify_secondary_bridge_events` (lines 210-236): topic 0
is the OR-set of the given signatures, no address constraint, topic 2 is the
padded bridge contract addresses. -/
def mkSecondaryFilter (start_block end_block : Nat)
    (contract_addresses : List Bytes)
    (event_types : List ValidEvents) : LogFilter :=
  { from_block := start_block, to_block := end_block,
    addresses := [],
    topic0 := some (event_types.map ValidEvents.signature),
    topic1 := none,
    topic2 := some (contract_addresses.map address_to_topic),
    topic3 := none }

/-- `identify_primary_bridge_events`: a failed `get_logs` becomes
`ErrorGettingEventLogs`. -/
def identify_primary_bridge_events (chain : ChainClient)
    (start_block end_block : Nat) (bridge_contract_addresses : List Bytes)
    (event_types : List ValidEvents) : Except AppError (List ChainLog) :=
  match chain.get_logs
      (mkPrimaryFilter start_block end_block bridge_contract_addresses
        event_types) with
  | .error _ => .error .ErrorGettingEventLogs
  | .ok logs => .ok logs

/-- `identify_secondary_bridge_events`: a failed `get_logs` becomes
`ErrorGettingEventLogs`. -/
def identify_secondary_bridge_events (chain : ChainClient)
    (start_block end_block : Nat) (contract_addresses : List Bytes)
    (event_types : List ValidEvents) : Except AppError (List ChainLog) :=
  match chain.get_logs
      (mkSecondaryFilter start_block end_block contract_addresses
        event_types) with
  | .error _ => .error .ErrorGettingEventLogs
  | .ok logs => .ok logs

/-- The log-fetching half of `identify_events` (lines 265-298), instrumented
with the list of `get_logs` filters actually issued, in order. The partition
of `ValidEvents::values()` into primary and secondary kinds, the mandatory
primary query, the conditional secondary query and the primary-then-secondary
concatenation follow the source; on a failed primary query the function
aborts before any secondary query. -/
def gather_logs (chain : ChainClient) (start_block end_block : Nat)
    (contract_addresses : List Bytes)
    (event_signatures_to_find : List Bytes) :
    List LogFilter × Except AppError (List ChainLog) :=
  let parts := ValidEvents.values.partition ValidEvents.is_primary
  let all_primary_events := parts.1
  let all_secondary_events := parts.2
  let pf := mkPrimaryFilter start_block end_block contract_addresses
    all_primary_events
  match identify_primary_bridge_events chain start_block end_block
      contract_addresses all_primary_events with
  | .error e => ([pf], .error e)
  | .ok logs =>
    let extend_discovery_to_secondary_events :=
      (event_signatures_to_find.filterMap ValidEvents.try_from).any
        (fun x => all_secondary_events.contains x)
    if extend_discovery_to_secondary_events then
      let sf := mkSecondaryFilter start_block end_block contract_addresses
        all_secondary_events
      match identify_secondary_bridge_events chain start_block end_block
          contract_addresses all_secondary_events with
      | .error e => ([pf, sf], .error e)
      | .ok secondary_logs => ([pf, sf], .ok (logs ++ secondary_logs))
    else ([pf], .ok logs)

/-- `identify_events` (lines 257-317): fetch primary-then-secondary logs,
dedup by transaction hash with primary precedence while decoding, then retain
only events whose signature is in the requested set and return the values. -/
def identify_events (chain : ChainClient) (start_block end_block : Nat)
    (contract_addresses : List Bytes)
    (event_signatures_to_find : List Bytes)
    (events_registry : EventRegistry) :
    Except AppError (List DiscoveredEvent) :=
  match (gather_logs chain start_block end_block contract_addresses
      event_signatures_to_find).2 with
  | .error e => .error e
  | .ok all_logs =>
    match merge_logs events_registry all_logs [] with
    | .error e => .error e
    | .ok unique_transactions =>
      .ok ((unique_transactions.filter (fun kv =>
        event_signatures_to_find.contains kv.2.event.event_id.signature)).map
          (fun kv => kv.2))

/-- `identify_additional_event_info`'s parallel receipt fetch
(`try_join_all`): all receipt calls must succeed, any failure fails the
batch. -/
def collect_receipts (chain : ChainClient) :
    List Bytes → Except Unit (List (Option ChainReceipt))
  | [] => .ok []
  | tx :: rest =>
    match chain.get_receipt tx with
    | .error e => .error e
    | .ok r =>
      match collect_receipts chain rest with
      | .error e => .error e
      | .ok rs => .ok (r :: rs)

/-- `identify_additional_event_info` (lines 319-331): fetch each
transaction's receipt, turn any RPC failure into `ErrorGettingEventLogs`,
flatten away absent receipts and keep only present block numbers. -/
def identify_additional_event_info (chain : ChainClient)
    (additional_transactions_to_check : List Bytes) :
    Except AppError (List Nat) :=
  match collect_receipts chain additional_transactions_to_check with
  | .error _ => .error .ErrorGettingEventLogs
  | .ok results =>
    .ok ((results.filterMap id).filterMap (fun r => r.block_number))

/-- `lib.rs` `ETH_FINALITY`. -/
def ETH_FINALITY : Nat := 20

/-- Modelled from the spec: `EthBlockRange` of `sp_avn_common` — the bounded
window open for voting, with its `end_block()` accessor exposed as a field
(spec section 3). -/
structure EthBlockRange where
  start_block : Nat
  end_block : Nat
deriving DecidableEq

/-- `is_evm_block_finalised` (lines 948-958): the external chain's head must
be at least `current_block_num + num_blocks_to_wait`. -/
def is_evm_block_finalised (evm : ChainClient)
    (current_block_num num_blocks_to_wait : Nat) : Except Unit Bool :=
  match evm.block_number with
  | .error e => .error e
  | .ok latest_block =>
    .ok (decide (current_block_num + num_blocks_to_wait ≤ latest_block))

/-- The finality gate guarding `process_events` in
`query_runtime_and_process` (line 666): an active range is processed only if
`is_evm_block_finalised` holds of its end block at depth `ETH_FINALITY`. -/
def active_range_gate (evm : ChainClient) (range : EthBlockRange) :
    Except Unit Bool :=
  is_evm_block_finalised evm range.end_block ETH_FINALITY

/-- `submit_latest_ethereum_block` (lines 700-782), restricted to the value
it votes on: when no vote was cast yet, the u64 head block is truncated by
the `as u32` cast (`% 2 ^ 32`) and that value is encoded, signed and
submitted; the proof encoding, keystore signature and runtime submission are
host-side collaborators, so the model returns the submitted block number
(`none` when the vote was already cast). -/
def submit_latest_ethereum_block (evm : ChainClient)
    (has_casted_vote : Bool) : Except Unit (Option Nat) :=
  if has_casted_vote then .ok none
  else
    match evm.block_number with
    | .error e => .error e
    | .ok latest =>
      .ok (some (latest % 2 ^ 32))

/-- One EVM client of the pool; it wraps the provider built for the endpoint
URL it was constructed from (`EvmClient::new_http`). URLs are numbered. -/
structure EvmClient where
  url : Nat
deriving DecidableEq

/-- Behaviour of one endpoint URL: `EvmClient::new_http` fails, or the client
is built but `chain_id()` fails, or the endpoint reports its chain id. -/
inductive ConnectOutcome where
  | connectFail
  | chainIdFail
  | ok (chain_id : Nat)
deriving DecidableEq

/-- Deterministic model of the network: what each endpoint URL does. -/
abbrev Net := Nat → ConnectOutcome

/-- First-match lookup in the `evm_clients` cache (`HashMap<u64, EvmClient>`
keyed by chain id). -/
def findClient (cache : List (Nat × EvmClient)) (chain_id : Nat) :
    Option EvmClient :=
  match cache with
  | [] => none
  | (k, c) :: rest => if k = chain_id then some c else findClient rest chain_id

/-- `initialise_evm` (lines 429-484): walk the endpoint list in order; a
connect or chain-id failure moves to the next URL; a discovered chain id is
inserted into the cache unless already present; if it equals the wanted id
the cached client for it is returned immediately; exhausting the list is a
`GenericError`. Returns (updated cache, URLs passed to `EvmClient::new_http`
in order, result). -/
def initialise_evm (net : Net) (wanted_chain_id : Nat) :
    List Nat → List (Nat × EvmClient) →
    List (Nat × EvmClient) × List Nat × Except AppError EvmClient
  | [], cache => (cache, [], .error .GenericError)
  | url :: rest, cache =>
    match net url with
    | .connectFail =>
      let r := initialise_evm net wanted_chain_id rest cache
      (r.1, url :: r.2.1, r.2.2)
    | .chainIdFail =>
      let r := initialise_evm net wanted_chain_id rest cache
      (r.1, url :: r.2.1, r.2.2)
    | .ok chain_id =>
      let cache2 :=
        match findClient cache chain_id with
        | some _ => cache
        | none => cache ++ [(chain_id, { url := url })]
      if chain_id = wanted_chain_id then
        match findClient cache2 chain_id with
        | some c => (cache2, [url], .ok c)
        | none => (cache2, [url], .error .GenericError)
      else
        let r := initialise_evm net wanted_chain_id rest cache2
        (r.1, url :: r.2.1, r.2.2)

/-- `SLEEP_TIME` (line 486). -/
def SLEEP_TIME : Nat := 60

/-- `RETRY_LIMIT` (line 487). -/
def RETRY_LIMIT : Nat := 3

/-- `RETRY_DELAY` (line 488). -/
def RETRY_DELAY : Nat := 5

/-- Decidable equality of `Except` results, for evaluating theorems on
concrete inputs. -/
instance exceptDecEq {ε α : Type} [DecidableEq ε] [DecidableEq α] :
    DecidableEq (Except ε α) := fun a b =>
  match a, b with
  | .error e1, .error e2 =>
    if h : e1 = e2 then isTrue (by rw [h])
    else isFalse (fun hh => h (Except.error.inj hh))
  | .error _, .ok _ => isFalse (fun hh => Except.noConfusion hh)
  | .ok _, .error _ => isFalse (fun hh => Except.noConfusion hh)
  | .ok a1, .ok a2 =>
    if h : a1 = a2 then isTrue (by rw [h])
    else isFalse (fun hh => h (Except.ok.inj hh))

/-- Observable outcome of one client acquisition: final cache, number of
`initialise_evm` invocations, URLs passed to `EvmClient::new_http` in order,
the sleep durations (seconds) in order, and the result. -/
structure PoolResult where
  cache : List (Nat × EvmClient)
  init_calls : Nat
  connect_attempts : List Nat
  sleeps : List Nat
  result : Except AppError EvmClient
deriving DecidableEq

/-- The retry loop of `get_evm_client_for_instance` (lines 513-530), with
`fuel = RETRY_LIMIT - attempts` remaining attempts: call `initialise_evm`;
on success return; on failure return `RetryLimitReached` once the limit is
hit, otherwise sleep `RETRY_DELAY` seconds and retry. Zero fuel is the
loop's (unreachable) fall-through `GenericError`. -/
def init_with_retries (net : Net) (wanted_chain_id : Nat) (urls : List Nat) :
    List (Nat × EvmClient) → Nat → PoolResult
  | cache, 0 =>
    { cache := cache, init_calls := 0, connect_attempts := [], sleeps := [],
      result := .error .GenericError }
  | cache, Nat.succ fuel =>
    let r := initialise_evm net wanted_chain_id urls cache
    match r.2.2 with
    | .ok c =>
      { cache := r.1, init_calls := 1, connect_attempts := r.2.1,
        sleeps := [], result := .ok c }
    | .error _ =>
      if fuel = 0 then
        { cache := r.1, init_calls := 1, connect_attempts := r.2.1,
          sleeps := [], result := .error .RetryLimitReached }
      else
        let rest := init_with_retries net wanted_chain_id urls r.1 fuel
        { cache := rest.cache, init_calls := 1 + rest.init_calls,
          connect_attempts := r.2.1 ++ rest.connect_attempts,
          sleeps := RETRY_DELAY :: rest.sleeps, result := rest.result }

/-- `get_evm_client_for_instance` (lines 490-531): a chain id already in the
cache is returned immediately with no connection or chain-id query;
otherwise `initialise_evm` is retried up to `RETRY_LIMIT` times. -/
def get_evm_client_for_instance (net : Net) (urls : List Nat)
    (cache : List (Nat × EvmClient)) (chain_id : Nat) : PoolResult :=
  match findClient cache chain_id with
  | some c =>
    { cache := cache, init_calls := 0, connect_attempts := [], sleeps := [],
      result := .ok c }
  | none => init_with_retries net chain_id urls cache RETRY_LIMIT

/-- Modelled from the spec: a concrete `EventRegistry::new()` for witnesses.
The byte-level decoders of `sp_avn_common` are outside `src/`; each entry
returns an opaque successful payload, and the direct-transfer decoder
(`LiftedData::from_erc_20_contract_transfer_bytes`) yields a zero
token-contract address, the case `parse_log` repairs. -/
def EventRegistry.new : EventRegistry :=
  { get_event_info := fun sig =>
      match ValidEvents.try_from sig with
      | none => none
      | some ev =>
        match ev with
        | .AddedValidator =>
          some { decode := fun _ _ => .ok (.LogAddedValidator 0) }
        | .Lifted =>
          some { decode := fun _ _ =>
                   .ok (.LogLifted { token_contract := List.replicate 20 0, payload := 0 }) }
        | .AvtGrowthLifted =>
          some { decode := fun _ _ => .ok (.LogAvtGrowthLifted 0) }
        | .NftCancelListing =>
          some { decode := fun _ _ => .ok (.LogNftCancelListing 0) }
        | .NftEndBatchListing =>
          some { decode := fun _ _ => .ok (.LogNftEndBatchListing 0) }
        | .NftMint =>
          some { decode := fun _ _ => .ok (.LogNftMinted 0) }
        | .NftTransferTo =>
          some { decode := fun _ _ => .ok (.LogNftTransferTo 0) }
        | .AvtLowerClaimed =>
          some { decode := fun _ _ => .ok (.LogLowerClaimed 0) }
        | .LowerReverted =>
          some { decode := fun _ _ => .ok (.LogLowerReverted 0) }
        | .LiftedToPredictionMarket =>
          some { decode := fun _ _ =>
                   .ok (.LogLiftedToPredictionMarket
                     { token_contract := List.replicate 20 0, payload := 0 }) }
        | .Erc20DirectTransfer =>
          some { decode := fun _ _ =>
                   .ok (.LogErc20Transfer
                     { token_contract := List.replicate 20 0, payload := 0 }) } }

/-- The first log in primary-then-secondary iteration order that carries the
given transaction hash (the log whose decoding `identify_events` retains for
that hash). -/
def firstLogWith (h : Bytes) : List ChainLog → Option ChainLog
  | [] => none
  | log :: rest =>
    match log.transaction_hash with
    | some t => if t = h then some log else firstLogWith h rest
    | none => firstLogWith h rest

/-- The primary `get_logs` filter `identify_events` always issues. -/
def primary_query (s e : Nat) (addrs : List Bytes) : LogFilter :=
  mkPrimaryFilter s e addrs
    (ValidEvents.values.partition ValidEvents.is_primary).1

/-- The secondary `get_logs` filter `identify_events` conditionally issues. -/
def secondary_query (s e : Nat) (addrs : List Bytes) : LogFilter :=
  mkSecondaryFilter s e addrs
    (ValidEvents.values.partition ValidEvents.is_primary).2

/-- A chain whose head block number is `h` and which is otherwise inert. -/
def chain_with_head (h : Nat) : ChainClient :=
  { block_number := .ok h, chain_id := .error (),
    get_logs := fun _ => .ok [], get_receipt := fun _ => .ok none }

/-- A concrete bridge contract address (20 bytes). -/
def addrA : Bytes := List.replicate 19 0 ++ [171]

/-- A concrete token contract address ending in `0xABCD` (20 bytes). -/
def addrB : Bytes := List.replicate 18 0 ++ [171, 205]

/-- A concrete transaction hash (32 bytes). -/
def txH : Bytes := List.replicate 31 0 ++ [99]

/-- A primary-event log on the bridge contract carrying `txH`. -/
def c1_plog : ChainLog :=
  { address := addrA, topics := [ValidEvents.AddedValidator.signature],
    data := [], transaction_hash := some txH, block_number := some 3 }

/-- A secondary-event log on a token contract carrying the same `txH`. -/
def c1_slog : ChainLog :=
  { address := addrB, topics := [ValidEvents.Erc20DirectTransfer.signature],
    data := [], transaction_hash := some txH, block_number := some 3 }

/-- A chain that answers the address-constrained (primary) query with
`c1_plog` and the unconstrained-address (secondary) query with `c1_slog`. -/
def c1_chain : ChainClient :=
  { block_number := .ok 0, chain_id := .ok 1,
    get_logs := fun f =>
      if f.addresses.isEmpty then .ok [c1_slog] else .ok [c1_plog],
    get_receipt := fun _ => .ok none }

/-- A requested-signature set holding one primary and one secondary kind. -/
def c1_sigs : List Bytes :=
  [ValidEvents.AddedValidator.signature,
   ValidEvents.Erc20DirectTransfer.signature]

/-- The event `identify_events` retains for `txH` on `c1_chain`: the decoded
primary log. -/
def c1_de : DiscoveredEvent :=
  { event := { event_id := { signature := ValidEvents.AddedValidator.signature,
                             transaction_hash := txH },
               event_data := .LogAddedValidator 0 },
    block := 3 }

/-- A matching log that carries no transaction hash. -/
def c2_log : ChainLog :=
  { address := addrA, topics := [ValidEvents.AddedValidator.signature],
    data := [], transaction_hash := none, block_number := some 7 }

/-- A chain whose every `get_logs` answer is the hashless `c2_log`. -/
def c2_chain : ChainClient :=
  { block_number := .ok 0, chain_id := .ok 1,
    get_logs := fun _ => .ok [c2_log], get_receipt := fun _ => .ok none }

/-- A chain whose `get_logs` always fails. -/
def c4_chain : ChainClient :=
  { block_number := .ok 0, chain_id := .ok 1,
    get_logs := fun _ => .error (), get_receipt := fun _ => .ok none }

/-- A direct-transfer log emitted by the token contract `addrB`. -/
def c6_log : ChainLog :=
  { address := addrB, topics := [ValidEvents.Erc20DirectTransfer.signature],
    data := [1], transaction_hash := some txH, block_number := some 9 }

/-- Endpoint behaviour for the pool witnesses: URL 0 refuses the connection,
URL 1 reports chain id 42, everything else refuses. -/
def net0 : Net := fun u =>
  if u = 0 then .connectFail else if u = 1 then .ok 42 else .connectFail

/-- Endpoint behaviour where every URL refuses the connection. -/
def net_dead : Net := fun _ => .connectFail

/-- Receipt behaviour for the additional-transaction witness: transaction
`[1]` has no receipt, `[2]` has a receipt with no block number, `[3]` has a
receipt in block 7. -/
def c10_chain : ChainClient :=
  { block_number := .ok 0, chain_id := .ok 1,
    get_logs := fun _ => .ok [],
    get_receipt := fun tx =>
      if tx = [1] then .ok none
      else if tx = [2] then .ok (some { block_number := none, json := [] })
      else if tx = [3] then .ok (some { block_number := some 7, json := [] })
      else .error () }

/-- C3: an active range is processed exactly when the external chain's head
is at least `range.end_block + ETH_FINALITY`; the finality depth is 20, and
concretely head 119 is not finalised for end block 100 while head 120 is. -/
theorem active_range_finality_gate (chain : ChainClient) (head : Nat)
    (range : EthBlockRange) (h : chain.block_number = .ok head) :
    (active_range_gate chain range = .ok true ↔
      range.end_block + ETH_FINALITY ≤ head)
    ∧ ETH_FINALITY = 20
    ∧ is_evm_block_finalised (chain_with_head 119) 100 20 = .ok false
    ∧ is_evm_block_finalised (chain_with_head 120) 100 20 = .ok true := by
  refine ⟨?_, rfl, rfl, rfl⟩
  unfold active_range_gate is_evm_block_finalised
  rw [h]
  constructor
  · intro hok
    exact of_decide_eq_true (Except.ok.inj hok)
  · intro hle
    simp [hle]

/-- Closed instance of `active_range_finality_gate` at head 120 and end
block 100. -/
theorem active_range_finality_gate_witness :
    (active_range_gate (chain_with_head 120)
        { start_block := 1, end_block := 100 } = .ok true ↔
      100 + ETH_FINALITY ≤ 120)
    ∧ ETH_FINALITY = 20
    ∧ is_evm_block_finalised (chain_with_head 119) 100 20 = .ok false
    ∧ is_evm_block_finalised (chain_with_head 120) 100 20 = .ok true :=
  active_range_finality_gate (chain_with_head 120) 120
    { start_block := 1, end_block := 100 } rfl

/-- C9: the initial latest-block vote submits the head truncated by the
`as u32` cast, i.e. `head % 2 ^ 32`; for a head of at least `2 ^ 32` the
voted value therefore differs from the real head. -/
theorem submit_latest_block_truncates_to_u32 (chain : ChainClient)
    (head : Nat) (h : chain.block_number = .ok head) :
    submit_latest_ethereum_block chain false = .ok (some (head % 2 ^ 32))
    ∧ (2 ^ 32 ≤ head → head % 2 ^ 32 ≠ head) := by
  constructor
  · simp [submit_latest_ethereum_block, h]
  · intro hge
    have hlt : head % 2 ^ 32 < 2 ^ 32 := Nat.mod_lt _ (by positivity)
    have h32 : (2:Nat) ^ 32 = 4294967296 := by norm_num
    omega

/-- Closed instance of `submit_latest_block_truncates_to_u32` at head
`2 ^ 32`, where the vote is 0, not the head. -/
theorem submit_latest_block_truncates_to_u32_witness :
    submit_latest_ethereum_block (chain_with_head (2 ^ 32)) false =
      .ok (some (2 ^ 32 % 2 ^ 32))
    ∧ (2 ^ 32 ≤ 2 ^ 32 → 2 ^ 32 % 2 ^ 32 ≠ 2 ^ 32) :=
  submit_latest_block_truncates_to_u32 (chain_with_head (2 ^ 32)) (2 ^ 32) rfl

/-- When every receipt call succeeds, the parallel fetch returns the raw
receipt options in transaction order. -/
theorem collect_receipts_ok (chain : ChainClient) (txs : List Bytes)
    (h : ∀ tx ∈ txs, ∃ r, chain.get_receipt tx = .ok r) :
    collect_receipts chain txs = .ok (txs.map (fun tx =>
      match chain.get_receipt tx with
      | .ok r => r
      | .error _ => none)) := by
  induction txs with
  | nil => rfl
  | cons tx rest ih =>
    obtain ⟨r, hr⟩ := h tx (List.mem_cons_self tx rest)
    have hrest := ih (fun t ht => h t (List.mem_cons_of_mem tx ht))
    simp [collect_receipts, hr, hrest]

/-- A failed batch pinpoints a failed receipt call. -/
theorem collect_receipts_error (chain : ChainClient) (txs : List Bytes)
    (u : Unit) (h : collect_receipts chain txs = .error u) :
    ∃ tx ∈ txs, chain.get_receipt tx = .error () := by
  induction txs with
  | nil => simp [collect_receipts] at h
  | cons tx rest ih =>
    cases hr : chain.get_receipt tx with
    | error e => exact ⟨tx, List.mem_cons_self tx rest, by rw [hr]⟩
    | ok r =>
      cases hc : collect_receipts chain rest with
      | error e' =>
        obtain ⟨t, ht, hht⟩ := ih hc
        exact ⟨t, List.mem_cons_of_mem tx ht, hht⟩
      | ok rs =>
        rw [collect_receipts, hr, hc] at h
        simp at h

/-- C10: a transaction whose receipt query succeeds with no receipt, or with
a receipt lacking a block number, contributes no block and raises no error;
`identify_additional_event_info` fails only when a receipt RPC call itself
fails, and then with `ErrorGettingEventLogs`. -/
theorem additional_event_info_drops_blockless_receipts
    (chain : ChainClient) (txs : List Bytes) :
    ((∀ tx ∈ txs, ∃ r, chain.get_receipt tx = .ok r) →
      identify_additional_event_info chain txs = .ok (txs.filterMap (fun tx =>
        match chain.get_receipt tx with
        | .ok (some r) => r.block_number
        | .ok none => none
        | .error _ => none)))
    ∧ (∀ e, identify_additional_event_info chain txs = .error e →
        e = .ErrorGettingEventLogs
        ∧ ∃ tx ∈ txs, chain.get_receipt tx = .error ()) := by
  constructor
  · intro hall
    have hcoll := collect_receipts_ok chain txs hall
    simp only [identify_additional_event_info, hcoll, List.filterMap_map,
      List.filterMap_filterMap]
    congr 1
    refine congrArg (fun h => List.filterMap h txs) ?_
    funext tx
    cases hr : chain.get_receipt tx with
    | error e => simp [hr]
    | ok r => cases r <;> simp [hr]
  · intro e he
    cases hc : collect_receipts chain txs with
    | error u =>
      have he' : e = .ErrorGettingEventLogs := by
        rw [identify_additional_event_info, hc] at he
        exact (Except.error.inj he).symm
      exact ⟨he', collect_receipts_error chain txs u hc⟩
    | ok rs =>
      rw [identify_additional_event_info, hc] at he
      simp at he

/-- Closed instance of `additional_event_info_drops_blockless_receipts` on
`c10_chain`: the absent receipt `[1]` and the blockless receipt `[2]` are
dropped, only block 7 of `[3]` survives, with no error. -/
theorem additional_event_info_drops_blockless_receipts_witness :
    identify_additional_event_info c10_chain [[1], [2], [3]] = .ok [7] :=
  (additional_event_info_drops_blockless_receipts c10_chain
    [[1], [2], [3]]).1 (by
      intro tx htx
      simp only [List.mem_cons, List.not_mem_nil, or_false] at htx
      rcases htx with rfl | rfl | rfl
      · exact ⟨none, rfl⟩
      · exact ⟨some { block_number := none, json := [] }, rfl⟩
      · exact ⟨some { block_number := some 7, json := [] }, rfl⟩)

/-- When no endpoint reports the wanted chain id, one pass of
`initialise_evm` ends in the post-loop `GenericError`, whatever the cache. -/
theorem initialise_evm_no_wanted (net : Net) (wanted : Nat)
    (urls : List Nat)
    (hfail : ∀ url ∈ urls, ∀ id, net url = .ok id → id ≠ wanted) :
    ∀ cache, (initialise_evm net wanted urls cache).2.2 =
      .error .GenericError := by
  induction urls with
  | nil => intro cache; rfl
  | cons url rest ih =>
    intro cache
    have hrest : ∀ u ∈ rest, ∀ id, net u = .ok id → id ≠ wanted :=
      fun u hu => hfail u (List.mem_cons_of_mem url hu)
    cases hnet : net url with
    | connectFail =>
      simp only [initialise_evm, hnet]
      exact ih hrest cache
    | chainIdFail =>
      simp only [initialise_evm, hnet]
      exact ih hrest cache
    | ok id =>
      have hne : id ≠ wanted := hfail url (List.mem_cons_self url rest) id hnet
      simp only [initialise_evm, hnet, if_neg hne]
      exact ih hrest _

/-- C8: for an uncached chain id whose acquisition fails on every endpoint,
`get_evm_client_for_instance` makes exactly `RETRY_LIMIT = 3` initialisation
attempts, sleeping `RETRY_DELAY = 5` seconds between consecutive attempts,
and returns `RetryLimitReached`. -/
theorem evm_client_retry_exhaustion (net : Net) (urls : List Nat)
    (cache : List (Nat × EvmClient)) (wanted : Nat)
    (hmiss : findClient cache wanted = none)
    (hfail : ∀ url ∈ urls, ∀ id, net url = .ok id → id ≠ wanted) :
    (get_evm_client_for_instance net urls cache wanted).result =
      .error .RetryLimitReached
    ∧ (get_evm_client_for_instance net urls cache wanted).init_calls = 3
    ∧ (get_evm_client_for_instance net urls cache wanted).sleeps =
        [RETRY_DELAY, RETRY_DELAY]
    ∧ RETRY_DELAY = 5 ∧ RETRY_LIMIT = 3 := by
  have hinit := initialise_evm_no_wanted net wanted urls hfail
  have hg : get_evm_client_for_instance net urls cache wanted =
      init_with_retries net wanted urls cache RETRY_LIMIT := by
    unfold get_evm_client_for_instance
    rw [hmiss]
  rw [hg]
  show (init_with_retries net wanted urls cache 3).result = _
    ∧ (init_with_retries net wanted urls cache 3).init_calls = 3
    ∧ (init_with_retries net wanted urls cache 3).sleeps = _
    ∧ RETRY_DELAY = 5 ∧ RETRY_LIMIT = 3
  simp only [init_with_retries, hinit]
  refine ⟨rfl, rfl, rfl, rfl, rfl⟩

/-- Closed instance of `evm_client_retry_exhaustion`: every endpoint of
`net_dead` refuses, so requesting chain id 42 on an empty cache exhausts the
3 attempts and reports `RetryLimitReached`. -/
theorem evm_client_retry_exhaustion_witness :
    (get_evm_client_for_instance net_dead [0, 1] [] 42).result =
      .error .RetryLimitReached
    ∧ (get_evm_client_for_instance net_dead [0, 1] [] 42).init_calls = 3
    ∧ (get_evm_client_for_instance net_dead [0, 1] [] 42).sleeps =
        [RETRY_DELAY, RETRY_DELAY]
    ∧ RETRY_DELAY = 5 ∧ RETRY_LIMIT = 3 :=
  evm_client_retry_exhaustion net_dead [0, 1] [] 42 rfl
    (by intro url hu id hid; simp [net_dead] at hid)

/-- A hit in the front part of the cache is preserved by appending. -/
theorem findClient_append_left (a b : List (Nat × EvmClient)) (k : Nat)
    (h : (findClient a k).isSome = true) :
    findClient (a ++ b) k = findClient a k := by
  induction a with
  | nil => simp [findClient] at h
  | cons kv rest ih =>
    obtain ⟨k', c⟩ := kv
    by_cases hk : k' = k
    · simp [findClient, hk]
    · simp only [findClient, if_neg hk] at h ⊢
      exact ih h

/-- Appending a fresh entry makes it visible. -/
theorem findClient_append_self (a : List (Nat × EvmClient)) (k : Nat)
    (c : EvmClient) (h : findClient a k = none) :
    findClient (a ++ [(k, c)]) k = some c := by
  induction a with
  | nil => simp [findClient]
  | cons kv rest ih =>
    obtain ⟨k', c'⟩ := kv
    by_cases hk : k' = k
    · simp [findClient, hk] at h
    · simp only [findClient, if_neg hk] at h ⊢
      exact ih h

/-- `initialise_evm` never evicts: a cached chain id stays cached. -/
theorem initialise_evm_cache_mono (net : Net) (wanted : Nat) :
    ∀ (urls : List Nat) (cache : List (Nat × EvmClient)) (id : Nat),
    (findClient cache id).isSome = true →
    (findClient (initialise_evm net wanted urls cache).1 id).isSome = true := by
  intro urls
  induction urls with
  | nil => intro cache id h; exact h
  | cons url rest ih =>
    intro cache id h
    cases hnet : net url with
    | connectFail => simp only [initialise_evm, hnet]; exact ih cache id h
    | chainIdFail => simp only [initialise_evm, hnet]; exact ih cache id h
    | ok cid =>
      have hstep : ∀ cache2, (match findClient cache cid with
          | some _ => cache
          | none => cache ++ [(cid, { url := url })]) = cache2 →
          (findClient cache2 id).isSome = true := by
        intro cache2 hc2
        cases hfc : findClient cache cid with
        | some c0 => rw [hfc] at hc2; rw [← hc2]; exact h
        | none =>
          rw [hfc] at hc2
          rw [← hc2, findClient_append_left cache [(cid, { url := url })] id h]
          exact h
      simp only [initialise_evm, hnet]
      by_cases hw : cid = wanted
      · simp only [if_pos hw]
        cases hfc2 : findClient (match findClient cache cid with
            | some _ => cache
            | none => cache ++ [(cid, { url := url })]) cid with
        | some c => exact hstep _ rfl
        | none => exact hstep _ rfl
      · simp only [if_neg hw]
        exact ih _ id (hstep _ rfl)

/-- After processing a URL that reported chain id `cid`, the cache holds an
entry for `cid`. -/
theorem cache2_has_cid (cache : List (Nat × EvmClient)) (cid url : Nat) :
    (findClient (match findClient cache cid with
      | some _ => cache
      | none => cache ++ [(cid, { url := url })]) cid).isSome = true := by
  cases hfc : findClient cache cid with
  | some c => simp [hfc]
  | none =>
    simp only [hfc]
    rw [findClient_append_self cache cid { url := url } hfc]
    rfl

/-- The URLs `initialise_evm` attempts are an initial segment of the
configured endpoint list: candidates are tried in list order. -/
theorem initialise_evm_tried_prefix (net : Net) (wanted : Nat) :
    ∀ (urls : List Nat) (cache : List (Nat × EvmClient)),
    (initialise_evm net wanted urls cache).2.1 =
      urls.take (initialise_evm net wanted urls cache).2.1.length := by
  intro urls
  induction urls with
  | nil => intro cache; rfl
  | cons url rest ih =>
    intro cache
    cases hnet : net url with
    | connectFail =>
      simp only [initialise_evm, hnet, List.length_cons, List.take_succ_cons]
      exact congrArg (url :: ·) (ih cache)
    | chainIdFail =>
      simp only [initialise_evm, hnet, List.length_cons, List.take_succ_cons]
      exact congrArg (url :: ·) (ih cache)
    | ok cid =>
      by_cases hw : cid = wanted
      · subst hw
        simp only [initialise_evm, hnet, if_pos rfl]
        cases hfc2 : findClient (match findClient cache cid with
            | some _ => cache
            | none => cache ++ [(cid, { url := url })]) cid with
        | some c => rfl
        | none => rfl
      · simp only [initialise_evm, hnet, if_neg hw, List.length_cons,
          List.take_succ_cons]
        exact congrArg (url :: ·) (ih _)

/-- Every chain id reported by an attempted URL ends up in the cache, even
when it is not the wanted id. -/
theorem initialise_evm_discovered_cached (net : Net) (wanted : Nat) :
    ∀ (urls : List Nat) (cache : List (Nat × EvmClient)) (id : Nat),
    (∃ u, u ∈ (initialise_evm net wanted urls cache).2.1 ∧ net u = .ok id) →
    (findClient (initialise_evm net wanted urls cache).1 id).isSome = true := by
  intro urls
  induction urls with
  | nil => rintro cache id ⟨u, hu, _⟩; cases hu
  | cons url rest ih =>
    rintro cache id ⟨u, hu, hnetu⟩
    cases hnet : net url with
    | connectFail =>
      simp only [initialise_evm, hnet, List.mem_cons] at hu ⊢
      rcases hu with rfl | h
      · rw [hnetu] at hnet; cases hnet
      · exact ih cache id ⟨u, h, hnetu⟩
    | chainIdFail =>
      simp only [initialise_evm, hnet, List.mem_cons] at hu ⊢
      rcases hu with rfl | h
      · rw [hnetu] at hnet; cases hnet
      · exact ih cache id ⟨u, h, hnetu⟩
    | ok cid =>
      have hid_of : u = url → id = cid := by
        intro hu'
        rw [← hu', hnetu] at hnet
        exact ConnectOutcome.ok.inj hnet
      by_cases hw : cid = wanted
      · simp only [initialise_evm, hnet, if_pos hw] at hu ⊢
        cases hfc2 : findClient (match findClient cache cid with
            | some _ => cache
            | none => cache ++ [(cid, { url := url })]) cid with
        | some c =>
          simp only [hfc2] at hu ⊢
          rcases List.mem_cons.mp hu with rfl | h
          · rw [hid_of rfl, hfc2]
            rfl
          · cases h
        | none =>
          have := cache2_has_cid cache cid url
          rw [hfc2] at this
          cases this
      · simp only [initialise_evm, hnet, if_neg hw, List.mem_cons] at hu ⊢
        rcases hu with rfl | h
        · rw [hid_of rfl]
          exact initialise_evm_cache_mono net wanted rest _ cid
            (cache2_has_cid cache cid u)
        · exact ih _ id ⟨u, h, hnetu⟩

/-- No attempted URL other than the final one reports the wanted chain id:
the client is returned as soon as it is found. -/
theorem initialise_evm_no_early_wanted (net : Net) (wanted : Nat) :
    ∀ (urls : List Nat) (cache : List (Nat × EvmClient)) (i x : Nat),
    (initialise_evm net wanted urls cache).2.1[i]? = some x →
    i + 1 < (initialise_evm net wanted urls cache).2.1.length →
    net x ≠ .ok wanted := by
  intro urls
  induction urls with
  | nil => intro cache i x hx hlen; simp [initialise_evm] at hx
  | cons url rest ih =>
    intro cache i x hx hlen
    cases hnet : net url with
    | connectFail =>
      simp only [initialise_evm, hnet, List.length_cons] at hx hlen
      cases i with
      | zero =>
        rw [List.getElem?_cons_zero] at hx
        injection hx with hx
        subst hx
        intro hcon
        rw [hnet] at hcon
        cases hcon
      | succ i' =>
        rw [List.getElem?_cons_succ] at hx
        exact ih cache i' x hx (by omega)
    | chainIdFail =>
      simp only [initialise_evm, hnet, List.length_cons] at hx hlen
      cases i with
      | zero =>
        rw [List.getElem?_cons_zero] at hx
        injection hx with hx
        subst hx
        intro hcon
        rw [hnet] at hcon
        cases hcon
      | succ i' =>
        rw [List.getElem?_cons_succ] at hx
        exact ih cache i' x hx (by omega)
    | ok cid =>
      by_cases hw : cid = wanted
      · simp only [initialise_evm, hnet, if_pos hw] at hlen
        cases hfc2 : findClient (match findClient cache cid with
            | some _ => cache
            | none => cache ++ [(cid, { url := url })]) cid with
        | some c =>
          simp only [hfc2, List.length_singleton] at hlen
          omega
        | none =>
          simp only [hfc2, List.length_singleton] at hlen
          omega
      · simp only [initialise_evm, hnet, if_neg hw, List.length_cons] at hx hlen
        cases i with
        | zero =>
          rw [List.getElem?_cons_zero] at hx
          injection hx with hx
          subst hx
          intro hcon
          rw [hnet] at hcon
          exact hw (ConnectOutcome.ok.inj hcon)
        | succ i' =>
          rw [List.getElem?_cons_succ] at hx
          exact ih _ i' x hx (by omega)

/-- If some configured URL reports the wanted chain id, `initialise_evm`
returns a client and the wanted id is cached, mapped to that client. -/
theorem initialise_evm_found (net : Net) (wanted : Nat) :
    ∀ (urls : List Nat) (cache : List (Nat × EvmClient)),
    (∃ u, u ∈ urls ∧ net u = .ok wanted) →
    ∃ c, (initialise_evm net wanted urls cache).2.2 = .ok c ∧
      findClient (initialise_evm net wanted urls cache).1 wanted = some c := by
  intro urls
  induction urls with
  | nil => rintro cache ⟨u, hu, _⟩; cases hu
  | cons url rest ih =>
    rintro cache ⟨u, hu, hnetu⟩
    cases hnet : net url with
    | connectFail =>
      simp only [initialise_evm, hnet]
      refine ih cache ⟨u, ?_, hnetu⟩
      rcases List.mem_cons.mp hu with rfl | h
      · rw [hnetu] at hnet; cases hnet
      · exact h
    | chainIdFail =>
      simp only [initialise_evm, hnet]
      refine ih cache ⟨u, ?_, hnetu⟩
      rcases List.mem_cons.mp hu with rfl | h
      · rw [hnetu] at hnet; cases hnet
      · exact h
    | ok cid =>
      by_cases hw : cid = wanted
      · simp only [initialise_evm, hnet, if_pos hw]
        cases hfc2 : findClient (match findClient cache cid with
            | some _ => cache
            | none => cache ++ [(cid, { url := url })]) cid with
        | some c =>
          refine ⟨c, rfl, ?_⟩
          rw [← hw]
          exact hfc2
        | none =>
          have := cache2_has_cid cache cid url
          rw [hfc2] at this
          cases this
      · simp only [initialise_evm, hnet, if_neg hw]
        refine ih _ ⟨u, ?_, hnetu⟩
        rcases List.mem_cons.mp hu with rfl | h
        · exact absurd
            (ConnectOutcome.ok.inj (hnetu.symm.trans hnet)).symm hw
        · exact h

/-- C7: client-pool acquisition. (i) a cached chain id is returned
immediately with no connection or chain-id query; for one `initialise_evm`
pass: (ii) URLs are attempted in list order (the attempts form an initial
segment of the endpoint list), (iii) every discovered chain id is cached,
target or not, (iv) no attempted URL before the last reports the wanted id
(a connect or chain-id failure moves on, a hit stops), and (v) if some URL
reports the wanted id the call returns the cached client for it. -/
theorem evm_client_pool_failover_and_cache (net : Net) (urls : List Nat)
    (cache : List (Nat × EvmClient)) (wanted : Nat) :
    (∀ c, findClient cache wanted = some c →
      get_evm_client_for_instance net urls cache wanted =
        { cache := cache, init_calls := 0, connect_attempts := [],
          sleeps := [], result := .ok c })
    ∧ (initialise_evm net wanted urls cache).2.1 =
        urls.take (initialise_evm net wanted urls cache).2.1.length
    ∧ (∀ id, (∃ u, u ∈ (initialise_evm net wanted urls cache).2.1 ∧
          net u = .ok id) →
        (findClient (initialise_evm net wanted urls cache).1 id).isSome = true)
    ∧ (∀ i x, (initialise_evm net wanted urls cache).2.1[i]? = some x →
        i + 1 < (initialise_evm net wanted urls cache).2.1.length →
        net x ≠ .ok wanted)
    ∧ ((∃ u, u ∈ urls ∧ net u = .ok wanted) →
        ∃ c, (initialise_evm net wanted urls cache).2.2 = .ok c ∧
          findClient (initialise_evm net wanted urls cache).1 wanted = some c) := by
  refine ⟨?_, initialise_evm_tried_prefix net wanted urls cache,
    fun id h => initialise_evm_discovered_cached net wanted urls cache id h,
    fun i x hx hl => initialise_evm_no_early_wanted net wanted urls cache i x hx hl,
    fun h => initialise_evm_found net wanted urls cache h⟩
  intro c hc
  unfold get_evm_client_for_instance
  rw [hc]

/-- Closed instance of `evm_client_pool_failover_and_cache` on
`net0 = [bad, good]`: URL 0 fails, URL 1 reports chain id 42, requesting 42
returns the URL-1 client, and a pre-cached id 42 short-circuits with no
connection attempt. -/
theorem evm_client_pool_failover_and_cache_witness :
    get_evm_client_for_instance net0 [0, 1] [(42, { url := 7 })] 42 =
      { cache := [(42, { url := 7 })], init_calls := 0,
        connect_attempts := [], sleeps := [], result := .ok { url := 7 } }
    ∧ ∃ c, (initialise_evm net0 42 [0, 1] []).2.2 = .ok c ∧
        findClient (initialise_evm net0 42 [0, 1] []).1 42 = some c := by
  constructor
  · exact (evm_client_pool_failover_and_cache net0 [0, 1]
      [(42, { url := 7 })] 42).1 { url := 7 } rfl
  · exact (evm_client_pool_failover_and_cache net0 [0, 1] [] 42).2.2.2.2
      ⟨1, by simp, rfl⟩

/-- A successfully parsed log has a leading topic, a transaction hash and a
block number, and the produced event id is built from them. -/
theorem parse_log_ok_shape (reg : EventRegistry) (log : ChainLog)
    (de : DiscoveredEvent) (h : parse_log reg log = .ok de) :
    ∃ sig restT tx bn,
      log.topics = sig :: restT ∧ log.transaction_hash = some tx ∧
      log.block_number = some bn ∧
      de.event.event_id = { signature := sig, transaction_hash := tx } ∧
      de.block = bn := by
  cases htop : log.topics with
  | nil => simp only [parse_log, htop] at h; cases h
  | cons sig restT =>
    cases htx : log.transaction_hash with
    | none => simp only [parse_log, htop, htx] at h; cases h
    | some tx =>
      cases hbn : log.block_number with
      | none => simp only [parse_log, htop, htx, hbn] at h; cases h
      | some bn =>
        cases hp : parse_event_data sig
            (if log.data.isEmpty then none else some log.data)
            (sig :: restT) reg with
        | error e => simp only [parse_log, htop, htx, hbn, hp] at h; cases h
        | ok parsed =>
          simp only [parse_log, htop, htx, hbn, hp] at h
          refine ⟨sig, restT, tx, bn, rfl, rfl, rfl, ?_, ?_⟩
          · rw [← Except.ok.inj h]
          · rw [← Except.ok.inj h]

/-- `findEntry` misses exactly the keys absent from the map. -/
theorem findEntry_eq_none_iff (m : List (Bytes × DiscoveredEvent))
    (h : Bytes) : findEntry m h = none ↔ h ∉ m.map Prod.fst := by
  induction m with
  | nil => simp [findEntry]
  | cons kv rest ih =>
    obtain ⟨k, v⟩ := kv
    by_cases hk : k = h
    · subst hk; simp [findEntry]
    · simp [findEntry, hk, ih, Ne.symm hk]

/-- The dedup loop keeps existing entries and maps each fresh transaction
hash to the decoding of the first log in the remaining list bearing it. -/
theorem merge_logs_findEntry (reg : EventRegistry) (L : List ChainLog) :
    ∀ (acc m : List (Bytes × DiscoveredEvent)),
    merge_logs reg L acc = .ok m → ∀ h : Bytes,
    (∀ v, findEntry acc h = some v → findEntry m h = some v)
    ∧ (findEntry acc h = none →
        findEntry m h = (firstLogWith h L).bind
          (fun l => (parse_log reg l).toOption)) := by
  induction L with
  | nil =>
    intro acc m hm h
    have hma : acc = m := Except.ok.inj hm
    subst hma
    exact ⟨fun v hv => hv, fun hn => by simp [firstLogWith, hn]⟩
  | cons log rest ih =>
    intro acc m hm h
    cases htx : log.transaction_hash with
    | none =>
      have hm' : merge_logs reg rest acc = .ok m := by
        simp only [merge_logs, htx] at hm; exact hm
      have IH := ih acc m hm' h
      refine ⟨IH.1, fun hn => ?_⟩
      rw [IH.2 hn]
      simp [firstLogWith, htx]
    | some tx =>
      cases hfe : findEntry acc tx with
      | some v0 =>
        have hm' : merge_logs reg rest acc = .ok m := by
          simp only [merge_logs, htx, hfe] at hm; exact hm
        have IH := ih acc m hm' h
        refine ⟨IH.1, fun hn => ?_⟩
        rw [IH.2 hn]
        by_cases hth : tx = h
        · subst hth; rw [hfe] at hn; cases hn
        · simp [firstLogWith, htx, hth]
      | none =>
        cases hpl : parse_log reg log with
        | error e =>
          exfalso
          simp only [merge_logs, htx, hfe, hpl] at hm
          cases hm
        | ok de =>
          have hm' : merge_logs reg rest ((tx, de) :: acc) = .ok m := by
            simp only [merge_logs, htx, hfe, hpl] at hm; exact hm
          have IH := ih ((tx, de) :: acc) m hm' h
          by_cases hth : tx = h
          · subst hth
            constructor
            · intro v hv; rw [hfe] at hv; cases hv
            · intro hn
              have hnew : findEntry ((tx, de) :: acc) tx = some de := by
                simp [findEntry]
              rw [IH.1 de hnew]
              simp [firstLogWith, htx, hpl, Except.toOption]
          · constructor
            · intro v hv
              apply IH.1
              simp only [findEntry, if_neg hth]
              exact hv
            · intro hn
              have hn' : findEntry ((tx, de) :: acc) h = none := by
                simp only [findEntry, if_neg hth]
                exact hn
              rw [IH.2 hn']
              simp [firstLogWith, htx, hth]

/-- Every entry of the dedup map is keyed by its event's transaction hash. -/
theorem merge_logs_hash_inv (reg : EventRegistry) (L : List ChainLog) :
    ∀ (acc m : List (Bytes × DiscoveredEvent)),
    (∀ kv ∈ acc, kv.2.event.event_id.transaction_hash = kv.1) →
    merge_logs reg L acc = .ok m →
    ∀ kv ∈ m, kv.2.event.event_id.transaction_hash = kv.1 := by
  induction L with
  | nil =>
    intro acc m hacc hm
    exact (Except.ok.inj hm) ▸ hacc
  | cons log rest ih =>
    intro acc m hacc hm
    cases htx : log.transaction_hash with
    | none =>
      simp only [merge_logs, htx] at hm
      exact ih acc m hacc hm
    | some tx =>
      cases hfe : findEntry acc tx with
      | some v0 =>
        simp only [merge_logs, htx, hfe] at hm
        exact ih acc m hacc hm
      | none =>
        cases hpl : parse_log reg log with
        | error e =>
          simp only [merge_logs, htx, hfe, hpl] at hm
          cases hm
        | ok de =>
          simp only [merge_logs, htx, hfe, hpl] at hm
          refine ih ((tx, de) :: acc) m ?_ hm
          intro kv hkv
          rcases List.mem_cons.mp hkv with rfl | hkv2
          · obtain ⟨sig, restT, tx', bn, _, htx', _, hid, _⟩ :=
              parse_log_ok_shape reg log de hpl
            rw [htx] at htx'
            have htt : tx = tx' := Option.some.inj htx'
            show de.event.event_id.transaction_hash = tx
            rw [hid]
            exact htt.symm
          · exact hacc kv hkv2

/-- The dedup map's keys are pairwise distinct. -/
theorem merge_logs_nodup_keys (reg : EventRegistry) (L : List ChainLog) :
    ∀ (acc m : List (Bytes × DiscoveredEvent)),
    (acc.map Prod.fst).Nodup → merge_logs reg L acc = .ok m →
    (m.map Prod.fst).Nodup := by
  induction L with
  | nil =>
    intro acc m hacc hm
    exact (Except.ok.inj hm) ▸ hacc
  | cons log rest ih =>
    intro acc m hacc hm
    cases htx : log.transaction_hash with
    | none =>
      simp only [merge_logs, htx] at hm
      exact ih acc m hacc hm
    | some tx =>
      cases hfe : findEntry acc tx with
      | some v0 =>
        simp only [merge_logs, htx, hfe] at hm
        exact ih acc m hacc hm
      | none =>
        cases hpl : parse_log reg log with
        | error e =>
          simp only [merge_logs, htx, hfe, hpl] at hm
          cases hm
        | ok de =>
          simp only [merge_logs, htx, hfe, hpl] at hm
          refine ih ((tx, de) :: acc) m ?_ hm
          rw [List.map_cons]
          exact List.nodup_cons.mpr
            ⟨(findEntry_eq_none_iff acc tx).mp hfe, hacc⟩


/-- A `findEntry` hit is a member of the map. -/
theorem findEntry_some_mem (m : List (Bytes × DiscoveredEvent)) (h : Bytes)
    (v : DiscoveredEvent) (hf : findEntry m h = some v) : (h, v) ∈ m := by
  induction m with
  | nil => cases hf
  | cons kv rest ih =>
    obtain ⟨k, w⟩ := kv
    by_cases hk : k = h
    · subst hk
      simp only [findEntry, if_pos rfl] at hf
      rw [Option.some.inj hf]
      exact List.mem_cons_self _ _
    · simp only [findEntry, if_neg hk] at hf
      exact List.mem_cons_of_mem (k, w) (ih hf)

/-- With pairwise-distinct keys, a key determines its entry. -/
theorem keys_nodup_unique (m : List (Bytes × DiscoveredEvent)) (h : Bytes)
    (a b : DiscoveredEvent) (hnd : (m.map Prod.fst).Nodup)
    (ha : (h, a) ∈ m) (hb : (h, b) ∈ m) : a = b := by
  induction m with
  | nil => cases ha
  | cons kv rest ih =>
    rw [List.map_cons] at hnd
    have hk_not : kv.1 ∉ rest.map Prod.fst := (List.nodup_cons.mp hnd).1
    have hnd' : (rest.map Prod.fst).Nodup := (List.nodup_cons.mp hnd).2
    rcases List.mem_cons.mp ha with rfl | ha'
    · rcases List.mem_cons.mp hb with hb0 | hb'
      · exact ((Prod.mk.injEq h b h a).mp hb0).2.symm
      · exfalso
        exact hk_not (List.mem_map.mpr ⟨(h, b), hb', rfl⟩)
    · rcases List.mem_cons.mp hb with rfl | hb'
      · exfalso
        exact hk_not (List.mem_map.mpr ⟨(h, a), ha', rfl⟩)
      · exact ih hnd' ha' hb'

/-- C1: for a discovery call that succeeds on fetched logs `all_logs`
(primary then secondary), every transaction hash `h` whose first bearing log
decodes to an event with a requested signature yields exactly one returned
event — the decoding of that first log — so N logs sharing a hash produce
one event and a primary log shadows a secondary log with the same hash. -/
theorem identify_events_dedup_primary_precedence
    (chain : ChainClient) (s e : Nat) (addrs sigs : List Bytes)
    (reg : EventRegistry) (all_logs : List ChainLog)
    (res : List DiscoveredEvent) (h : Bytes) (log : ChainLog)
    (de : DiscoveredEvent)
    (hgather : (gather_logs chain s e addrs sigs).2 = .ok all_logs)
    (hok : identify_events chain s e addrs sigs reg = .ok res)
    (hfirst : firstLogWith h all_logs = some log)
    (hparse : parse_log reg log = .ok de)
    (hsig : sigs.contains de.event.event_id.signature = true) :
    de ∈ res ∧ ∀ d ∈ res, d.event.event_id.transaction_hash = h → d = de := by
  simp only [identify_events, hgather] at hok
  cases hm : merge_logs reg all_logs [] with
  | error e2 => rw [hm] at hok; cases hok
  | ok m =>
    rw [hm] at hok
    have hres : ((m.filter (fun kv =>
        sigs.contains kv.2.event.event_id.signature)).map
          (fun kv => kv.2)) = res := Except.ok.inj hok
    have hlk : findEntry m h = some de := by
      have hthis := (merge_logs_findEntry reg all_logs [] m hm h).2 rfl
      rw [hfirst] at hthis
      simpa [hparse, Except.toOption] using hthis
    have hinv := merge_logs_hash_inv reg all_logs [] m
      (by intro kv hkv; cases hkv) hm
    have hnd := merge_logs_nodup_keys reg all_logs [] m (by simp) hm
    have hmem_m : (h, de) ∈ m := findEntry_some_mem m h de hlk
    constructor
    · rw [← hres]
      exact List.mem_map.mpr ⟨(h, de), List.mem_filter.mpr ⟨hmem_m, hsig⟩, rfl⟩
    · intro d hd hdh
      rw [← hres] at hd
      obtain ⟨kv, hkvf, hkv2⟩ := List.mem_map.mp hd
      obtain ⟨k1, v1⟩ := kv
      have hkvm : (k1, v1) ∈ m := List.mem_of_mem_filter hkvf
      have hv1d : v1 = d := hkv2
      subst hv1d
      have hkey : v1.event.event_id.transaction_hash = k1 :=
        hinv (k1, v1) hkvm
      have hk1 : k1 = h := by rw [← hkey, hdh]
      subst hk1
      exact keys_nodup_unique m _ v1 de hnd hkvm hmem_m

/-- C5: every event returned by a discovery call has a signature in the
caller-supplied set; a discovered event whose signature is outside the set
is filtered out. -/
theorem identify_events_only_requested_signatures (chain : ChainClient)
    (s e : Nat) (addrs sigs : List Bytes) (reg : EventRegistry)
    (res : List DiscoveredEvent)
    (hok : identify_events chain s e addrs sigs reg = .ok res) :
    ∀ d ∈ res, sigs.contains d.event.event_id.signature = true := by
  cases hg : (gather_logs chain s e addrs sigs).2 with
  | error e2 => simp only [identify_events, hg] at hok; cases hok
  | ok all_logs =>
    simp only [identify_events, hg] at hok
    cases hm : merge_logs reg all_logs [] with
    | error e2 => rw [hm] at hok; cases hok
    | ok m =>
      rw [hm] at hok
      intro d hd
      rw [← Except.ok.inj hok] at hd
      obtain ⟨kv, hkvf, hkv2⟩ := List.mem_map.mp hd
      rw [← hkv2]
      exact (List.mem_filter.mp hkvf).2

/-- Closed instance of `identify_events_dedup_primary_precedence` on
`c1_chain`, where a primary and a secondary log share `txH`: the single
returned event is the decoded primary log. -/
theorem identify_events_dedup_primary_precedence_witness :
    c1_de ∈ [c1_de]
    ∧ ∀ d ∈ [c1_de], d.event.event_id.transaction_hash = txH → d = c1_de :=
  identify_events_dedup_primary_precedence c1_chain 0 5 [addrA] c1_sigs
    EventRegistry.new [c1_plog, c1_slog] [c1_de] txH c1_plog c1_de
    rfl rfl rfl rfl rfl

/-- Closed instance of `identify_events_only_requested_signatures` on
`c1_chain`. -/
theorem identify_events_only_requested_signatures_witness :
    c1_sigs.contains c1_de.event.event_id.signature = true :=
  identify_events_only_requested_signatures c1_chain 0 5 [addrA] c1_sigs
    EventRegistry.new [c1_de] rfl c1_de (List.mem_cons_self c1_de [])

/-- `identify_primary_bridge_events` fails only with
`ErrorGettingEventLogs`. -/
theorem identify_primary_bridge_events_error (chain : ChainClient)
    (s e : Nat) (addrs : List Bytes) (evs : List ValidEvents)
    (e2 : AppError)
    (h : identify_primary_bridge_events chain s e addrs evs = .error e2) :
    e2 = .ErrorGettingEventLogs := by
  cases hg : chain.get_logs (mkPrimaryFilter s e addrs evs) with
  | error u =>
    simp only [identify_primary_bridge_events, hg] at h
    exact (Except.error.inj h).symm
  | ok logs =>
    simp only [identify_primary_bridge_events, hg] at h
    cases h

/-- `identify_secondary_bridge_events` fails only with
`ErrorGettingEventLogs`. -/
theorem identify_secondary_bridge_events_error (chain : ChainClient)
    (s e : Nat) (addrs : List Bytes) (evs : List ValidEvents)
    (e2 : AppError)
    (h : identify_secondary_bridge_events chain s e addrs evs = .error e2) :
    e2 = .ErrorGettingEventLogs := by
  cases hg : chain.get_logs (mkSecondaryFilter s e addrs evs) with
  | error u =>
    simp only [identify_secondary_bridge_events, hg] at h
    exact (Except.error.inj h).symm
  | ok logs =>
    simp only [identify_secondary_bridge_events, hg] at h
    cases h

/-- The log-fetching half of discovery fails only with
`ErrorGettingEventLogs`. -/
theorem gather_logs_error (chain : ChainClient) (s e : Nat)
    (addrs sigs : List Bytes) (e2 : AppError)
    (h : (gather_logs chain s e addrs sigs).2 = .error e2) :
    e2 = .ErrorGettingEventLogs := by
  cases hp : identify_primary_bridge_events chain s e addrs
      (ValidEvents.values.partition ValidEvents.is_primary).1 with
  | error ep =>
    simp only [gather_logs, hp] at h
    rw [← Except.error.inj h]
    exact identify_primary_bridge_events_error chain s e addrs _ ep hp
  | ok logs =>
    by_cases hext : ((sigs.filterMap ValidEvents.try_from).any (fun x =>
        (ValidEvents.values.partition ValidEvents.is_primary).2.contains x)) = true
    · cases hs : identify_secondary_bridge_events chain s e addrs
          (ValidEvents.values.partition ValidEvents.is_primary).2 with
      | error es =>
        simp only [gather_logs, hp, hext, if_true, hs] at h
        rw [← Except.error.inj h]
        exact identify_secondary_bridge_events_error chain s e addrs _ es hs
      | ok slogs =>
        simp only [gather_logs, hp, hext, if_true, hs] at h
        cases h
    · rw [Bool.not_eq_true] at hext
      simp only [gather_logs, hp, hext, Bool.false_eq_true, if_false] at h
      cases h

/-- The registry decode step never reports a missing transaction hash. -/
theorem parse_event_data_ne_mth (sig : Bytes) (data : Option Bytes)
    (topics : List Bytes) (reg : EventRegistry) :
    parse_event_data sig data topics reg ≠ .error .MissingTransactionHash := by
  cases hr : reg.get_event_info sig with
  | none => simp [parse_event_data, hr]
  | some info =>
    cases hd : info.decode data topics with
    | error n => simp [parse_event_data, hr, hd]
    | ok d => simp [parse_event_data, hr, hd]

/-- A log that does carry a transaction hash can never make `parse_log`
report a missing one. -/
theorem parse_log_some_tx_ne_mth (reg : EventRegistry) (log : ChainLog)
    (tx : Bytes) (htx : log.transaction_hash = some tx) :
    parse_log reg log ≠ .error .MissingTransactionHash := by
  cases htop : log.topics with
  | nil => simp [parse_log, htop]
  | cons sig restT =>
    cases hbn : log.block_number with
    | none => simp [parse_log, htop, htx, hbn]
    | some bn =>
      cases hp : parse_event_data sig
          (if log.data.isEmpty then none else some log.data)
          (sig :: restT) reg with
      | error e2 =>
        simp only [parse_log, htop, htx, hbn, hp]
        intro hcon
        exact parse_event_data_ne_mth sig _ _ reg
          (hp.trans (congrArg Except.error (Except.error.inj hcon)))
      | ok parsed =>
        simp only [parse_log, htop, htx, hbn, hp]
        intro hcon
        cases hcon

/-- The dedup loop only decodes logs that carry a transaction hash, so it
never reports a missing one. -/
theorem merge_logs_ne_mth (reg : EventRegistry) (L : List ChainLog) :
    ∀ acc, merge_logs reg L acc ≠ .error .MissingTransactionHash := by
  induction L with
  | nil => intro acc; simp [merge_logs]
  | cons log rest ih =>
    intro acc
    cases htx : log.transaction_hash with
    | none => simp only [merge_logs, htx]; exact ih acc
    | some tx =>
      cases hfe : findEntry acc tx with
      | some v0 => simp only [merge_logs, htx, hfe]; exact ih acc
      | none =>
        cases hpl : parse_log reg log with
        | error e2 =>
          simp only [merge_logs, htx, hfe, hpl]
          intro hcon
          exact parse_log_some_tx_ne_mth reg log tx htx
            (hpl.trans (congrArg Except.error (Except.error.inj hcon)))
        | ok de => simp only [merge_logs, htx, hfe, hpl]; exact ih _

/-- C2 (amended): a fetched log with no transaction hash is silently skipped
by the dedup loop, so `identify_events` never fails with
`MissingTransactionHash`; `parse_log` itself, applied directly to a log with
topics but no transaction hash, does return `MissingTransactionHash`. -/
theorem identify_events_never_missing_tx_hash (chain : ChainClient)
    (s e : Nat) (addrs sigs : List Bytes) (reg : EventRegistry)
    (log : ChainLog) (h1 : log.topics ≠ [])
    (h2 : log.transaction_hash = none) :
    identify_events chain s e addrs sigs reg ≠
      .error .MissingTransactionHash
    ∧ parse_log reg log = .error .MissingTransactionHash := by
  constructor
  · cases hg : (gather_logs chain s e addrs sigs).2 with
    | error e2 =>
      simp only [identify_events, hg]
      intro hcon
      have := gather_logs_error chain s e addrs sigs e2 hg
      rw [this] at hcon
      cases hcon
    | ok all_logs =>
      simp only [identify_events, hg]
      cases hm : merge_logs reg all_logs [] with
      | error e2 =>
        intro hcon
        exact merge_logs_ne_mth reg all_logs []
          (hm.trans (congrArg Except.error (Except.error.inj hcon)))
      | ok m => intro hcon; cases hcon
  · cases htop : log.topics with
    | nil => exact absurd htop h1
    | cons sig restT => simp [parse_log, htop, h2]

/-- Counterexample to C2 as stated: `c2_chain` returns the matching log
`c2_log`, whose transaction hash is absent, yet `identify_events` succeeds
with the empty set instead of failing with `MissingTransactionHash`. -/
theorem identify_events_skips_missing_tx_hash_counterexample :
    (gather_logs c2_chain 0 5 [addrA]
        [ValidEvents.AddedValidator.signature]).2 = .ok [c2_log]
    ∧ c2_log.transaction_hash = none
    ∧ identify_events c2_chain 0 5 [addrA]
        [ValidEvents.AddedValidator.signature] EventRegistry.new = .ok [] :=
  ⟨rfl, rfl, rfl⟩

/-- Closed instance of `identify_events_never_missing_tx_hash` at `c2_chain`
and `c2_log`. -/
theorem identify_events_never_missing_tx_hash_witness :
    identify_events c2_chain 0 5 [addrA]
        [ValidEvents.AddedValidator.signature] EventRegistry.new ≠
      .error .MissingTransactionHash
    ∧ parse_log EventRegistry.new c2_log =
        .error .MissingTransactionHash :=
  identify_events_never_missing_tx_hash c2_chain 0 5 [addrA]
    [ValidEvents.AddedValidator.signature] EventRegistry.new c2_log
    (by simp [c2_log]) rfl

/-- The modelled event signatures are pairwise distinct. -/
theorem validEvents_signature_injective :
    ∀ a b : ValidEvents, a.signature = b.signature → a = b := by decide

/-- Every event kind appears in `ValidEvents.values`. -/
theorem validEvents_mem_values : ∀ e : ValidEvents, e ∈ ValidEvents.values := by
  decide

/-- The source's secondary-extension test — mapping the requested signatures
back to event kinds and checking for a secondary one — holds exactly when
the requested set contains the signature of some secondary kind. -/
theorem extend_condition_iff (sigs : List Bytes) :
    ((sigs.filterMap ValidEvents.try_from).any (fun x =>
      (ValidEvents.values.partition ValidEvents.is_primary).2.contains x))
        = true
    ↔ ∃ sig, sig ∈ sigs ∧
        ∃ ev : ValidEvents, ev.is_primary = false ∧ ev.signature = sig := by
  rw [List.partition_eq_filter_filter, List.any_eq_true]
  constructor
  · rintro ⟨x, hx, hcont⟩
    obtain ⟨sig, hsig, htf⟩ := List.mem_filterMap.mp hx
    have hxsig : x.signature = sig := by
      have hpred := List.find?_some htf
      exact eq_of_beq hpred
    have hxmem : x ∈ ValidEvents.values.filter (fun v => !v.is_primary) := by
      simpa using hcont
    have hsec : x.is_primary = false := by
      have := (List.mem_filter.mp hxmem).2
      simpa using this
    exact ⟨sig, hsig, x, hsec, hxsig⟩
  · rintro ⟨sig, hsig, ev, hsec, hevsig⟩
    cases hfind : ValidEvents.values.find? (fun e => e.signature == sig) with
    | none =>
      exfalso
      have := List.find?_eq_none.mp hfind ev (validEvents_mem_values ev)
      rw [hevsig] at this
      simp at this
    | some y =>
      have hy : y.signature = sig := by
        simpa using List.find?_some hfind
      have hyev : y = ev :=
        validEvents_signature_injective y ev (by rw [hy, hevsig])
      refine ⟨ev, List.mem_filterMap.mpr ⟨sig, hsig, ?_⟩, ?_⟩
      · rw [ValidEvents.try_from, hfind, hyev]
      · have : ev ∈ ValidEvents.values.filter (fun v => !v.is_primary) :=
          List.mem_filter.mpr ⟨validEvents_mem_values ev, by simp [hsec]⟩
        simpa using this

/-- C4 (amended): the primary query is always issued first, with topic 0 the
signatures of all primary kinds and the address set the bridge contracts;
the secondary query (all secondary signatures, no address constraint,
topic 2 the bridge addresses right-aligned into 32 bytes) is issued exactly
when the requested set contains a secondary signature — provided the
primary query succeeds; on primary failure the call aborts with no
secondary query. -/
theorem identify_events_query_plan (chain : ChainClient) (s e : Nat)
    (addrs sigs : List Bytes) :
    ((gather_logs chain s e addrs sigs).1 = [primary_query s e addrs]
      ∨ (gather_logs chain s e addrs sigs).1 =
          [primary_query s e addrs, secondary_query s e addrs])
    ∧ (primary_query s e addrs).addresses = addrs
    ∧ (primary_query s e addrs).topic0 =
        some ((ValidEvents.values.filter ValidEvents.is_primary).map
          ValidEvents.signature)
    ∧ (secondary_query s e addrs).addresses = []
    ∧ (secondary_query s e addrs).topic0 =
        some ((ValidEvents.values.filter (fun v => !v.is_primary)).map
          ValidEvents.signature)
    ∧ (secondary_query s e addrs).topic2 = some (addrs.map address_to_topic)
    ∧ (∀ a : Bytes, a.length = 20 → (address_to_topic a).length = 32
        ∧ (address_to_topic a).take 12 = List.replicate 12 0
        ∧ (address_to_topic a).drop 12 = a)
    ∧ ((gather_logs chain s e addrs sigs).1 =
        [primary_query s e addrs, secondary_query s e addrs] →
        ∃ sig, sig ∈ sigs ∧
          ∃ ev : ValidEvents, ev.is_primary = false ∧ ev.signature = sig)
    ∧ (∀ logs, chain.get_logs (primary_query s e addrs) = .ok logs →
        ((∃ sig, sig ∈ sigs ∧
            ∃ ev : ValidEvents, ev.is_primary = false ∧ ev.signature = sig) ↔
          (gather_logs chain s e addrs sigs).1 =
            [primary_query s e addrs, secondary_query s e addrs])) := by
  have hpad : ∀ a : Bytes, a.length = 20 → (address_to_topic a).length = 32
      ∧ (address_to_topic a).take 12 = List.replicate 12 0
      ∧ (address_to_topic a).drop 12 = a := by
    intro a ha
    have h12 : (List.replicate 12 (0:Nat)).length = 12 :=
      List.length_replicate 12 0
    refine ⟨?_, ?_, ?_⟩
    · simp [address_to_topic, ha]
    · rw [address_to_topic]
      exact List.take_left' h12
    · rw [address_to_topic]
      exact List.drop_left' h12
  cases hp : chain.get_logs (mkPrimaryFilter s e addrs
      (ValidEvents.values.partition ValidEvents.is_primary).1) with
  | error u =>
    have htr : (gather_logs chain s e addrs sigs).1 =
        [primary_query s e addrs] := by
      unfold primary_query
      simp only [gather_logs, identify_primary_bridge_events, hp]
    refine ⟨Or.inl htr, rfl, rfl, rfl, rfl, rfl, hpad, ?_, ?_⟩
    · intro hcontra
      rw [htr] at hcontra
      simp at hcontra
    · intro logs hlogs
      unfold primary_query at hlogs
      rw [hp] at hlogs
      cases hlogs
  | ok logs0 =>
    by_cases hext : ((sigs.filterMap ValidEvents.try_from).any (fun x =>
        (ValidEvents.values.partition ValidEvents.is_primary).2.contains x))
          = true
    · have htr : (gather_logs chain s e addrs sigs).1 =
          [primary_query s e addrs, secondary_query s e addrs] := by
        unfold primary_query secondary_query
        cases hs : identify_secondary_bridge_events chain s e addrs
            (ValidEvents.values.partition ValidEvents.is_primary).2 with
        | error es =>
          simp only [gather_logs, identify_primary_bridge_events, hp, hext,
            if_true, hs]
        | ok slogs =>
          simp only [gather_logs, identify_primary_bridge_events, hp, hext,
            if_true, hs]
      exact ⟨Or.inr htr, rfl, rfl, rfl, rfl, rfl, hpad,
        fun _ => (extend_condition_iff sigs).mp hext,
        fun logs hlogs =>
          ⟨fun _ => htr, fun _ => (extend_condition_iff sigs).mp hext⟩⟩
    · rw [Bool.not_eq_true] at hext
      have htr : (gather_logs chain s e addrs sigs).1 =
          [primary_query s e addrs] := by
        unfold primary_query
        simp only [gather_logs, identify_primary_bridge_events, hp, hext,
          Bool.false_eq_true, if_false]
      refine ⟨Or.inl htr, rfl, rfl, rfl, rfl, rfl, hpad, ?_, ?_⟩
      · intro hcontra
        rw [htr] at hcontra
        simp at hcontra
      · intro logs hlogs
        constructor
        · intro hex
          exfalso
          have := (extend_condition_iff sigs).mpr hex
          rw [hext] at this
          cases this
        · intro hcontra
          rw [htr] at hcontra
          simp at hcontra

/-- Counterexample to C4 as stated: on `c4_chain` the primary query fails,
so even though the requested set holds a secondary signature, no secondary
query is issued — the trace is the primary query alone. -/
theorem secondary_query_not_issued_on_primary_failure :
    (∃ sig, sig ∈ [ValidEvents.Erc20DirectTransfer.signature] ∧
      ∃ ev : ValidEvents, ev.is_primary = false ∧ ev.signature = sig)
    ∧ (gather_logs c4_chain 0 5 [addrA]
        [ValidEvents.Erc20DirectTransfer.signature]).1 =
        [primary_query 0 5 [addrA]]
    ∧ (gather_logs c4_chain 0 5 [addrA]
        [ValidEvents.Erc20DirectTransfer.signature]).1 ≠
        [primary_query 0 5 [addrA], secondary_query 0 5 [addrA]] := by
  refine ⟨⟨ValidEvents.Erc20DirectTransfer.signature,
    List.mem_cons_self _ _, .Erc20DirectTransfer, rfl, rfl⟩, rfl, ?_⟩
  intro hcon
  have h2 : ([primary_query 0 5 [addrA]] : List LogFilter) =
      [primary_query 0 5 [addrA], secondary_query 0 5 [addrA]] := hcon
  simp at h2

/-- Closed instance of `identify_events_query_plan` on `c1_chain` with a
requested secondary signature: both queries are issued, in order. -/
theorem identify_events_query_plan_witness :
    (gather_logs c1_chain 0 5 [addrA] c1_sigs).1 =
      [primary_query 0 5 [addrA], secondary_query 0 5 [addrA]] :=
  ((identify_events_query_plan c1_chain 0 5 [addrA] c1_sigs).2.2.2.2.2.2.2.2
    [c1_plog] rfl).mp
    ⟨ValidEvents.Erc20DirectTransfer.signature,
      List.mem_cons_of_mem _ (List.mem_cons_self _ _),
      .Erc20DirectTransfer, rfl, rfl⟩

/-- C6: when the registry decodes a log to a direct transfer whose
token-contract address is all zero bytes, `parse_log` substitutes the log's
emitting contract address; any other decoded payload — a direct transfer
with a nonzero token contract, or any other variant — is returned
unchanged. -/
theorem parse_log_zero_address_repair (reg : EventRegistry) (log : ChainLog)
    (sig : Bytes) (restT : List Bytes) (tx : Bytes) (bn : Nat)
    (ed : EventData)
    (htop : log.topics = sig :: restT)
    (htx : log.transaction_hash = some tx)
    (hbn : log.block_number = some bn)
    (hdec : parse_event_data sig
      (if log.data.isEmpty then none else some log.data)
      (sig :: restT) reg = .ok ed) :
    (∀ d, ed = .LogErc20Transfer d →
      d.token_contract.all (fun b => b == 0) = true →
      parse_log reg log = .ok
        { event := { event_id := { signature := sig, transaction_hash := tx },
                     event_data := .LogErc20Transfer
                       { token_contract := log.address,
                         payload := d.payload } },
          block := bn })
    ∧ (∀ d, ed = .LogErc20Transfer d →
        d.token_contract.all (fun b => b == 0) = false →
        parse_log reg log = .ok
          { event := { event_id := { signature := sig,
                                     transaction_hash := tx },
                       event_data := ed },
            block := bn })
    ∧ ((∀ d, ed ≠ .LogErc20Transfer d) →
        parse_log reg log = .ok
          { event := { event_id := { signature := sig,
                                     transaction_hash := tx },
                       event_data := ed },
            block := bn }) := by
  refine ⟨?_, ?_, ?_⟩
  · rintro d rfl hz
    simp only [parse_log, htop, htx, hbn, hdec]
    rw [if_pos hz]
  · rintro d rfl hz
    simp only [parse_log, htop, htx, hbn, hdec]
    rw [if_neg (by simp [hz])]
  · intro hne
    simp only [parse_log, htop, htx, hbn, hdec]

/-- Closed instance of `parse_log_zero_address_repair`: the transfer log
`c6_log`, decoded with a zero token contract, comes back with the emitting
contract `addrB` substituted in. -/
theorem parse_log_zero_address_repair_witness :
    parse_log EventRegistry.new c6_log = .ok
      { event :=
          { event_id :=
              { signature := ValidEvents.Erc20DirectTransfer.signature,
                transaction_hash := txH },
            event_data :=
              .LogErc20Transfer { token_contract := addrB, payload := 0 } },
        block := 9 } :=
  (parse_log_zero_address_repair EventRegistry.new c6_log
    ValidEvents.Erc20DirectTransfer.signature [] txH 9
    (.LogErc20Transfer { token_contract := List.replicate 20 0, payload := 0 })
    rfl rfl rfl rfl).1
    { token_contract := List.replicate 20 0, payload := 0 } rfl (by decide)
